import Mathlib

/-!
Verification development for the polygon-to-topology import pipeline of
`src/vector/v.in.ogr/main.c` (GRASS `v.in.ogr`).

The development shallowly embeds the parts of `main.c` that the checked
properties are about:

* the category-assignment logic of the import pass (lines 1254-1431) and of
  the centroid-reattachment pass (lines 1609-1666);
* the angle-collapse fixpoint loop of the cleaning pipeline (lines 1533-1546)
  and the surrounding fixed stage sequence (lines 1485-1583);
* the centroid materialization step (lines 1674-1706);
* the feature-stream iterator `ogr_getnextfeature` / `OGR_iterator_reset`
  (lines 1900-2063), in its GDAL < 2.2 form, where the interleaved shared
  cursor is realized by round-robin reading over the per-layer cursors
  (the GDAL >= 2.2 form differs only in how the shared cursor is rewound
  and in matching the owning layer by name instead of by index);
* the split-distance calibration (lines 875-883 and 974-983) and the
  snap-threshold estimator (lines 1766-1855), modelled over `ℝ` with the
  C `double` operations read as exact real operations.

External collaborators (the OGR feature source, the topology engine
`Vect_*` primitives, the attribute database) are modelled by their
observable effects only: streams of features are lists, topology
operations are trace events, and the numbers they report
(`Vect_clean_small_angles_at_nodes` modification counts, bridge
modification counts) are parameters.
-/

/-! ## Features and the two category-assigning passes

One OGR feature, as seen by the category logic of `main.c`: whether
`OGR_F_GetGeomFieldRef` returned a non-NULL geometry, the integer value of
the designated key field (`OGR_F_GetFieldAsInteger`), and the feature id
(`OGR_F_GetFID`).  The key-column designation is carried exactly as in the
source: `key_idx > -1` means an explicit integer key field, `key_idx = -1`
means the FID column was designated, and `key_idx = -2` means no key was
designated (line 1035: `key_idx[layer] = -2; /* -1 for fid column */`).
-/

structure OgrFeat where
  hasGeom : Bool
  fieldVal : ℤ
  fid : ℤ
deriving DecidableEq, Repr

/-- Import pass of `main.c` lines 1290-1431, restricted to its category
logic.  The loop state is the C variable `cat` (initialized to 1 at line
1257).  For each fetched feature: if the geometry is non-NULL, `cat` is
reassigned from the key field (`key_idx > -1`, line 1321) or from the FID
(`key_idx == -1`, line 1323) and `geom()` is called with that `cat`; the
attribute row is then inserted with the current `cat` (line 1337); finally
`cat++` runs unconditionally (line 1430).  Each output entry is
(category passed to `geom()` if any, category used for the attribute row).
-/
def importPass (key_idx : ℤ) : List OgrFeat → ℤ → List (Option ℤ × ℤ)
  | [], _ => []
  | f :: fs, cat =>
    let c := if f.hasGeom then
               (if -1 < key_idx then f.fieldVal
                else if key_idx = -1 then f.fid
                else cat)
             else cat
    ((if f.hasGeom then some c else none), c) :: importPass key_idx fs (c + 1)

/-- Centroid-reattachment pass of `main.c` lines 1624-1664, restricted to
its category logic.  The loop state is `cat` (initialized to 0 at line
1624).  For each fetched feature, before the geometry is looked at, `cat`
is reassigned from the key field if `key_idx > -1` (line 1633) and
otherwise incremented (`cat++`, line 1635); `centroid()` is then called
with that `cat` when the geometry is non-NULL (line 1654).  Each output
entry is (category passed to `centroid()` if any, value of `cat` after the
per-feature update). -/
def reattachPass (key_idx : ℤ) : List OgrFeat → ℤ → List (Option ℤ × ℤ)
  | [], _ => []
  | f :: fs, cat =>
    let c := if -1 < key_idx then f.fieldVal else cat + 1
    ((if f.hasGeom then some c else none), c) :: reattachPass key_idx fs c

/-! ## The angle-collapse fixpoint loop

Lines 1533-1546 of `main.c`:

  do {
      Vect_break_lines(&Tmp, GV_BOUNDARY, NULL);
      Vect_remove_duplicates(&Tmp, GV_BOUNDARY, NULL);
      nmodif = Vect_clean_small_angles_at_nodes(&Tmp, GV_BOUNDARY, NULL);
  } while (nmodif > 0);

The topology engine is external; the only thing the loop inspects is the
modification count returned by each `Vect_clean_small_angles_at_nodes`
call.  The embedding therefore takes the sequence of reported counts as a
function `m : ℕ → ℕ` (`m i` is the count reported by the collapse call of
the i-th iteration) and runs the loop under explicit fuel; `none` means
the loop is still running after `fuel` iterations.  The source itself has
no fuel: the C loop runs for as long as the counts stay positive. -/

def angleLoopCount (m : ℕ → ℕ) : ℕ → ℕ → Option ℕ
  | 0, _ => none
  | fuel + 1, i => if m i = 0 then some (i + 1) else angleLoopCount m fuel (i + 1)

/-! ## The cleaning pipeline as a trace of topology-engine calls

Lines 1485-1583 of `main.c` are a straight-line sequence of calls into the
topology engine, with three conditionals: the snap stage runs iff
`snap >= 0` (line 1502); dangles and bridges are converted to lines iff
`type & GV_BOUNDARY` (lines 1554, 1567), otherwise removed; and an extra
`Vect_build_partial(&Tmp, GV_BUILD_NONE)` runs iff the bridge stage
reported modifications (lines 1570-1577).  Each constructor below names
the corresponding call. -/

inductive CleanOp where
  /-- `Vect_snap_lines(&Tmp, GV_BOUNDARY, snap, NULL)`, line 1505 -/
  | snapLines
  /-- `Vect_break_polygons(&Tmp, GV_BOUNDARY, NULL)`, line 1521 -/
  | breakPolygons
  /-- `Vect_remove_duplicates(&Tmp, GV_BOUNDARY | GV_CENTROID, NULL)`, line 1526 -/
  | removeDuplicatesBC
  /-- `Vect_break_lines(&Tmp, GV_BOUNDARY, NULL)`, line 1536 -/
  | breakLines
  /-- `Vect_remove_duplicates(&Tmp, GV_BOUNDARY, NULL)`, line 1540 -/
  | removeDuplicatesB
  /-- `Vect_clean_small_angles_at_nodes(&Tmp, GV_BOUNDARY, NULL)`, line 1545 -/
  | cleanSmallAngles
  /-- `Vect_merge_lines(&Tmp, GV_BOUNDARY, NULL, NULL)`, line 1551 -/
  | mergeLines
  /-- `Vect_chtype_dangles(&Tmp, -1.0, NULL)`, line 1556 -/
  | chtypeDangles
  /-- `Vect_remove_dangles(&Tmp, GV_BOUNDARY, -1.0, NULL)`, line 1560 -/
  | removeDangles
  /-- `Vect_build_partial(&Tmp, GV_BUILD_AREAS)`, line 1564 -/
  | buildAreas
  /-- `Vect_chtype_bridges(&Tmp, NULL, &nmodif, NULL)`, line 1569 -/
  | chtypeBridges
  /-- `Vect_remove_bridges(&Tmp, NULL, &nmodif, NULL)`, line 1575 -/
  | removeBridges
  /-- `Vect_build_partial(&Tmp, GV_BUILD_NONE)`, lines 1571, 1577 and 1582 -/
  | buildNone
  /-- `Vect_build_partial(&Tmp, GV_BUILD_ATTACH_ISLES)`, line 1583 -/
  | buildAttachIsles
deriving DecidableEq, Repr

/-- Trace of the do-while loop of lines 1533-1546: each iteration emits
break, remove-duplicates and collapse events, and the loop exits after the
iteration whose collapse call reports zero modifications. -/
def angleLoopTrace (m : ℕ → ℕ) : ℕ → ℕ → Option (List CleanOp)
  | 0, _ => none
  | fuel + 1, i =>
    let ops := [CleanOp.breakLines, CleanOp.removeDuplicatesB, CleanOp.cleanSmallAngles]
    if m i = 0 then some ops
    else (angleLoopTrace m fuel (i + 1)).map (fun tr => ops ++ tr)

/-- Trace of the whole cleaning pipeline, lines 1485-1583, in source
order.  `snapv` is the `snap` option value, `typeBoundary` is the test
`type & GV_BOUNDARY` (lines were imported as boundaries), `m` is the
stream of collapse modification counts, and `bridgeModif` is the `nmodif`
reported by the bridge stage.  `none` means the collapse loop did not
reach its fixpoint within `fuel` iterations (in which case the C code is
still inside the do-while loop). -/
def cleanPipelineTrace (snapv : ℚ) (typeBoundary : Bool) (m : ℕ → ℕ)
    (bridgeModif : ℕ) (fuel : ℕ) : Option (List CleanOp) :=
  (angleLoopTrace m fuel 0).map (fun loopOps =>
    (if 0 ≤ snapv then [CleanOp.snapLines] else []) ++
    [CleanOp.breakPolygons, CleanOp.removeDuplicatesBC] ++
    loopOps ++
    [CleanOp.mergeLines] ++
    [if typeBoundary then CleanOp.chtypeDangles else CleanOp.removeDangles] ++
    [CleanOp.buildAreas] ++
    [if typeBoundary then CleanOp.chtypeBridges else CleanOp.removeBridges] ++
    (if bridgeModif ≠ 0 then [CleanOp.buildNone] else []) ++
    [CleanOp.buildNone, CleanOp.buildAttachIsles])

/-! ## Centroid records and their materialization

`main.c` lines 1674-1706: for every area 1..ncentr the loop skips records
whose representative point could not be computed (`valid == 0`, line
1682), skips records that accumulated no category (line 1686), and for
records with more than one category first appends the synthetic category
`(nlayers + 1, n_cats)` (`Vect_cat_set(Centr[centr].cats, nlayers + 1,
Centr[centr].cats->n_cats)`, lines 1692-1694) before writing the centroid
with its category set (line 1705). -/

structure CentroidRec where
  valid : Bool
  cats : List (ℕ × ℤ)
deriving DecidableEq, Repr

/-- Category list written for one centroid record, `none` when the record
is skipped (invalid, or no category).  Mirrors lines 1682-1705; the field
`nlayers + 1` is fresh, so `Vect_cat_set` appends the synthetic pair. -/
def materializeCats (nlayers : ℕ) (r : CentroidRec) : Option (List (ℕ × ℤ)) :=
  if r.valid = false then none
  else if r.cats.length = 0 then none
  else if 1 < r.cats.length then some (r.cats ++ [(nlayers + 1, (r.cats.length : ℤ))])
  else some r.cats

/-- Category lists of all centroids written by the loop of lines
1674-1706, in order. -/
def writeCentroids (nlayers : ℕ) (recs : List CentroidRec) : List (List (ℕ × ℤ)) :=
  recs.filterMap (materializeCats nlayers)

/-! ## The feature-stream iterator

State of `struct OGR_iterator` (lines 77-89 of `main.c`), for the
GDAL < 2.2 build.  The underlying dataset is a list of per-layer feature
lists `L : List (List α)`; cursors are modelled by the remaining suffix of
each layer.  `sharedRem` is the cursor state used in interleaved mode (a
suffix per layer, read round-robin, lines 2031-2058), `layerRem` the
per-layer cursors of independent-cursor mode.  `requested` is
`requested_layer` (`-1` after init/reset, hence `ℤ`), `curr` is
`curr_layer`, `done` and `hasNonempty` are the corresponding C ints.
The source initializes `curr_layer` to -1, but every read of `curr_layer`
is preceded by the layer-switch prologue, which overwrites it; the model
keeps `curr : ℕ` and leaves it at 0 when the source would hold -1.
The per-layer spatial and attribute filters are recorded in `spatF` and
`attrF` (their effect on the stream is OGR-internal; the model tracks
which filters are installed, as that is what the checked claims are
about). -/

structure OgrIterSt (α : Type) where
  interleaved : Bool
  requested : ℤ
  done : Bool
  curr : ℕ
  hasNonempty : Bool
  sharedRem : List (List α)
  layerRem : List (List α)
  spatF : List (Option ℕ)
  attrF : List (Option ℕ)
deriving DecidableEq, Repr

/-- `OGR_iterator_reset`, lines 1925-1935: `requested_layer`,
`curr_layer`, `Ogr_layer`, `has_nonempty_layers` and `done` are reset (the
GDAL >= 2.2 build additionally rewinds the shared dataset cursor; in the
GDAL < 2.2 build modelled here the rewind happens at the next layer
switch, which re-opens the data source). -/
def ogrIteratorReset {α : Type} (s : OgrIterSt α) : OgrIterSt α :=
  { s with requested := -1, curr := 0, hasNonempty := false, done := false }

/-- Layer-switch prologue of `ogr_getnextfeature`, lines 1942-1986: when
the requested layer differs from the previous one, independent-cursor mode
(lines 1945-1950) re-targets `curr_layer` and rewinds that layer's own
cursor (`OGR_L_ResetReading`); interleaved mode (lines 1951-1983) clears
the spatial and attribute filters of every layer (lines 1955-1959),
rewinds the shared cursor to the start of the stream (for GDAL < 2.2 by
re-opening the data source and resetting `curr_layer` and
`has_nonempty_layers`, lines 1966-1972), and re-applies the requested
layer's filters (lines 1976-1979).  Both modes then record the new
requested layer and clear `done` (lines 1984-1985). -/
def ogrSwitch {α : Type} (L : List (List α)) (layer : ℕ) (spat attr : Option ℕ)
    (s : OgrIterSt α) : OgrIterSt α :=
  if s.requested = (layer : ℤ) then s
  else if s.interleaved then
    { s with
      spatF := (s.spatF.map (fun _ => none)).set layer spat,
      attrF := (s.attrF.map (fun _ => none)).set layer attr,
      sharedRem := L,
      curr := 0,
      hasNonempty := false,
      requested := (layer : ℤ),
      done := false }
  else
    { s with
      curr := layer,
      layerRem := s.layerRem.set layer (L.getD layer []),
      requested := (layer : ℤ),
      done := false }

/-- Interleaved reading loop, GDAL < 2.2, lines 2031-2058 of `main.c`:
pull the next feature of `curr_layer`; a feature from a layer other than
the requested one is destroyed and the loop continues; when the current
layer is exhausted, advance to the next layer, wrapping to layer 0 as long
as the pass saw at least one feature, and setting `done` when a full pass
over all layers yielded nothing.  `fuel` bounds the number of loop
iterations (the C loop is `while (1)`; `interMeasure` below bounds its
iteration count). -/
def interLoop {α : Type} (req : ℕ) : ℕ → OgrIterSt α → Option α × OgrIterSt α
  | 0, s => (none, s)
  | fuel + 1, s =>
    match s.sharedRem.getD s.curr [] with
    | f :: fs =>
      let s1 := { s with sharedRem := s.sharedRem.set s.curr fs, hasNonempty := true }
      if s.curr = req then (some f, s1) else interLoop req fuel s1
    | [] =>
      if s.curr + 1 = s.sharedRem.length then
        if s.hasNonempty then
          interLoop req fuel { s with curr := 0, hasNonempty := false }
        else
          (none, { s with curr := s.curr + 1, done := true })
      else interLoop req fuel { s with curr := s.curr + 1 }

/-- Total number of features remaining on the shared cursor. -/
def totalRem {α : Type} (s : OgrIterSt α) : ℕ :=
  (s.sharedRem.map List.length).sum

/-- Termination measure for `interLoop`: strictly decreases at every
recursive call, so any `fuel` above it lets the loop run to one of its
`return` statements. -/
def interMeasure {α : Type} (s : OgrIterSt α) : ℕ :=
  let n := s.sharedRem.length
  totalRem s * (2 * n + 2) + (if s.hasNonempty then n + 1 else 0) + (n - s.curr)

/-- `ogr_getnextfeature`, lines 1937-2063, GDAL < 2.2 build: the
layer-switch prologue, then the `done` early return (lines 1988-1989),
then one read from the requested layer's own cursor in independent-cursor
mode (lines 1991-2001, with `done` set on end of stream) or the
interleaved round-robin loop. -/
def ogrGetNextFeature {α : Type} (L : List (List α)) (layer : ℕ)
    (spat attr : Option ℕ) (fuel : ℕ) (s : OgrIterSt α) :
    Option α × OgrIterSt α :=
  let s1 := ogrSwitch L layer spat attr s
  if s1.done then (none, s1)
  else if s1.interleaved then interLoop layer fuel s1
  else
    match (s1.layerRem.getD layer []) with
    | [] => (none, { s1 with done := true })
    | f :: fs => (some f, { s1 with layerRem := s1.layerRem.set layer fs })

/-! ## Split-distance calibration

Lines 875-883 of `main.c` initialize `split_distance` and `area_size`
(`area_size` already holds the square root of the selection bbox area,
line 882), and lines 974-983 update `split_distance` after the census.
The C doubles are read as exact reals. -/

/-- Value of `area_size` after lines 875-883: `-1` when cleaning is
disabled or the selection bbox is degenerate (`xmin >= xmax` or
`ymin >= ymax`), otherwise `sqrt((xmax - xmin) * (ymax - ymin))`. -/
noncomputable def areaSizeOf (no_clean : Bool) (xmin ymin xmax ymax : ℝ) : ℝ :=
  if no_clean = true ∨ xmax ≤ xmin ∨ ymax ≤ ymin then -1
  else Real.sqrt ((xmax - xmin) * (ymax - ymin))

/-- Value of `split_distance` after lines 875-883 and before the census
update: `-1` in the disabled branch, `0` otherwise (line 881). -/
noncomputable def splitDistanceInit (no_clean : Bool) (xmin ymin xmax ymax : ℝ) : ℝ :=
  if no_clean = true ∨ xmax ≤ xmin ∨ ymax ≤ ymin then -1 else 0

/-- Value of `split_distance` after the census update of lines 975-979:
when `area_size > 0 && n_polygon_boundaries > 50`, it becomes
`area_size / log(n_polygon_boundaries) / 16`; otherwise it keeps its
initial value. -/
noncomputable def splitDistanceFinal (no_clean : Bool) (xmin ymin xmax ymax : ℝ)
    (n_polygon_boundaries : ℕ) : ℝ :=
  if 0 < areaSizeOf no_clean xmin ymin xmax ymax ∧ 50 < n_polygon_boundaries then
    areaSizeOf no_clean xmin ymin xmax ymax / Real.log (n_polygon_boundaries : ℝ) / 16
  else splitDistanceInit no_clean xmin ymin xmax ymax

/-! ## The snap-threshold estimator

Lines 1766-1855 of `main.c`.  The guard is
`n_polygons && nlayers == 1` (line 1766) and then
`ncentr != n_polygons || n_overlaps` (line 1772).  The magnitude of the
map box is taken with C's integer `abs` applied to the double coordinates
(lines 1778-1785), which truncates each coordinate toward zero before
taking the absolute value.  The `frexp`/`exp -= bits`/`ldexp` sequence
(lines 1791-1793 and 1803-1805) computes, exactly on reals,
`x * 2 ^ (-bits)`.  The "human readable" step (lines 1795-1800 and
1807-1812) takes `log10`, truncates toward zero and, for non-negative
logarithms, adds one, then raises 10 to the result; `roundPow10` below is
that map. -/

/-- C conversion of a `double` to `int`: truncation toward zero.  The C
conversion is defined only when the truncated value is representable in
the 32-bit `int`, i.e. for `|x| < 2^31`; this model extends it with
unbounded `ℤ` truncation and is faithful to the program exactly on that
domain.  Every concrete coordinate this development evaluates the
estimator at lies well inside it. -/
noncomputable def cTruncInt (x : ℝ) : ℤ :=
  if x < 0 then -⌊-x⌋ else ⌊x⌋

/-- `abs(x)` as called on a `double` at lines 1778-1785 of `main.c` with
`<stdlib.h>`'s integer `abs` in scope: the argument is converted to `int`
(truncated) and the integer absolute value is taken.  Like `cTruncInt`
this is faithful to the program for `|x| < 2^31` (which also keeps the
argument away from `abs(INT_MIN)`). -/
noncomputable def cIntAbs (x : ℝ) : ℝ :=
  ((cTruncInt x).natAbs : ℝ)

/-- The `xmax` magnitude of lines 1778-1788: the largest of the four
coordinate magnitudes of the map box (each taken through the integer
`abs`). -/
noncomputable def snapXmax (e w n s : ℝ) : ℝ :=
  max (max (cIntAbs e) (cIntAbs w)) (max (cIntAbs n) (cIntAbs s))

/-- The `frexp` / `exp -= bits` / `ldexp` sequence on exact reals:
`frexp` writes `x = f * 2 ^ exp` with `f ∈ [0.5, 1)`, and
`ldexp(f, exp - bits)` is then `x * 2 ^ (-bits)`. -/
noncomputable def ulpScaled (x : ℝ) (bits : ℕ) : ℝ :=
  x * (2 : ℝ) ^ (-(bits : ℤ))

/-- Lines 1795-1800 (and 1807-1812): `v` is replaced by `log10(v)`,
truncated toward zero when negative and floored-plus-one otherwise, and
10 is raised to the result.  For `v > 0` this is a power of ten that is
at least `v` (see `roundPow10_spec`): the code rounds up, toward the next
power of ten. -/
noncomputable def roundPow10 (v : ℝ) : ℝ :=
  (10 : ℝ) ^ (if Real.logb 10 v < 0 then ⌈Real.logb 10 v⌉ else ⌊Real.logb 10 v⌋ + 1)

/-- `min_snap` of lines 1791-1800: the 53-bit-mantissa (double precision)
scale of `x`, rounded up to a power of ten. -/
noncomputable def minSnapOf (x : ℝ) : ℝ := roundPow10 (ulpScaled x 52)

/-- `max_snap` of lines 1803-1812: the 24-bit-mantissa (single precision)
scale of `x`, rounded up to a power of ten. -/
noncomputable def maxSnapOf (x : ℝ) : ℝ := roundPow10 (ulpScaled x 23)

/-- Guard under which the estimator of lines 1766-1855 computes and
reports its suggestions: one layer, a positive census polygon count, and
either a centroid/polygon count mismatch or detected overlaps. -/
def estimatorTriggered (n_polygons nlayers ncentr n_overlaps : ℕ) : Bool :=
  n_polygons ≠ 0 && nlayers = 1 && (ncentr ≠ n_polygons || n_overlaps ≠ 0)

/-- Rounding to the nearest power of ten, as the specification's words
"rounded to the nearest power of ten" read (nearest on the decimal
logarithmic scale); used only to compare the source's rounding against
the specification. -/
noncomputable def nearestPow10 (v : ℝ) : ℝ :=
  (10 : ℝ) ^ (round (Real.logb 10 v))

/-- Expected category sequence: `n` consecutive integers starting at `c`.
Used to state what the counter-based category assignment produces. -/
def catSeq (c : ℤ) : ℕ → List ℤ
  | 0 => []
  | n + 1 => c :: catSeq (c + 1) n

/-! ## Helper lemmas -/

theorem catSeq_eq_range (n : ℕ) : ∀ c : ℤ, catSeq c n = (List.range n).map (fun i : ℕ => c + (i : ℤ)) := by
  induction n with
  | zero => intro c; rfl
  | succ n ih =>
    intro c
    rw [List.range_succ_eq_map]
    simp only [catSeq, List.map_cons, List.map_map, Nat.cast_zero, add_zero, List.cons.injEq,
      true_and]
    rw [ih (c + 1)]
    apply List.map_congr_left
    intro i _
    simp only [Function.comp_apply, Nat.cast_succ]
    ring

theorem importPass_auto_snd (feats : List OgrFeat) : ∀ c : ℤ,
    (importPass (-2) feats c).map Prod.snd = catSeq c feats.length := by
  induction feats with
  | nil => intro c; rfl
  | cons f fs ih =>
    intro c
    simp only [importPass, List.map_cons, List.length_cons, catSeq, List.cons.injEq]
    constructor
    · by_cases h : f.hasGeom <;> simp [h]
    · have hc : (if f.hasGeom then
          (if (-1 : ℤ) < -2 then f.fieldVal else if (-2 : ℤ) = -1 then f.fid else c)
          else c) = c := by
        by_cases h : f.hasGeom <;> simp [h]
      rw [hc] at *
      exact ih (c + 1)

theorem reattachPass_auto_snd (feats : List OgrFeat) : ∀ c : ℤ,
    (reattachPass (-2) feats c).map Prod.snd = catSeq (c + 1) feats.length := by
  induction feats with
  | nil => intro c; rfl
  | cons f fs ih =>
    intro c
    simp only [reattachPass, List.map_cons, List.length_cons, catSeq, List.cons.injEq]
    constructor
    · norm_num
    · have : (if (-1 : ℤ) < -2 then f.fieldVal else c + 1) = c + 1 := by norm_num
      rw [this]
      exact ih (c + 1)

theorem importPass_keyfield (key_idx : ℤ) (hk : -1 < key_idx) (feats : List OgrFeat) :
    ∀ (c : ℤ) (i : ℕ) (f : OgrFeat), feats[i]? = some f → f.hasGeom = true →
      (importPass key_idx feats c)[i]? = some (some f.fieldVal, f.fieldVal) := by
  induction feats with
  | nil => intro c i f hf; simp at hf
  | cons f0 fs ih =>
    intro c i f hf hg
    cases i with
    | zero =>
      simp only [List.getElem?_cons_zero, Option.some.injEq] at hf
      subst hf
      simp [importPass, hg, if_pos hk]
    | succ i =>
      simp only [List.getElem?_cons_succ] at hf
      simpa [importPass] using ih _ i f hf hg

theorem importPass_fid (feats : List OgrFeat) :
    ∀ (c : ℤ) (i : ℕ) (f : OgrFeat), feats[i]? = some f → f.hasGeom = true →
      (importPass (-1) feats c)[i]? = some (some f.fid, f.fid) := by
  induction feats with
  | nil => intro c i f hf; simp at hf
  | cons f0 fs ih =>
    intro c i f hf hg
    cases i with
    | zero =>
      simp only [List.getElem?_cons_zero, Option.some.injEq] at hf
      subst hf
      simp [importPass, hg]
    | succ i =>
      simp only [List.getElem?_cons_succ] at hf
      simpa [importPass] using ih _ i f hf hg

theorem angleLoopCount_of_first_zero (m : ℕ → ℕ) (k : ℕ) (hk : m k = 0)
    (hmin : ∀ j < k, m j ≠ 0) :
    ∀ (fuel i : ℕ), i ≤ k → k < i + fuel → angleLoopCount m fuel i = some (k + 1) := by
  intro fuel
  induction fuel with
  | zero => intro i hik hki; omega
  | succ fuel ih =>
    intro i hik hki
    by_cases h : m i = 0
    · have hi : i = k := by
        by_contra hne
        exact hmin i (lt_of_le_of_ne hik hne) h
      subst hi
      simp [angleLoopCount, h]
    · have hil : i < k := lt_of_le_of_ne hik (fun h0 => h (h0 ▸ hk))
      simp only [angleLoopCount, if_neg h]
      exact ih (i + 1) hil (by omega)

theorem angleLoopCount_none (m : ℕ → ℕ) :
    ∀ (fuel i : ℕ), (∀ j, i ≤ j → j < i + fuel → m j ≠ 0) →
      angleLoopCount m fuel i = none := by
  intro fuel
  induction fuel with
  | zero => intro i _; rfl
  | succ fuel ih =>
    intro i h
    have hi : m i ≠ 0 := h i le_rfl (by omega)
    simp only [angleLoopCount, if_neg hi]
    exact ih (i + 1) (fun j hj1 hj2 => h j (by omega) (by omega))

/-! ## Claim theorems -/

/-- Claim C2, counterexample to the "caps the number of iterations and
surfaces a warning" part: with a topology engine whose collapse passes
always report one modification, the do-while loop of lines 1533-1546 is
still running after 300 iterations (and, by `angleLoopCount_none`, after
any number of iterations) — the source has no iteration cap and no
warning path.  The whole-pipeline trace is likewise still unfinished. -/
theorem angleLoop_no_iteration_cap :
    angleLoopCount (fun _ => 1) 300 0 = none ∧
    cleanPipelineTrace 0 false (fun _ => 1) 0 300 = none := by
  constructor
  · exact angleLoopCount_none (fun _ => 1) 300 0 (fun j _ _ => one_ne_zero)
  · show (angleLoopTrace (fun _ => 1) 300 0).map _ = none
    have h : angleLoopTrace (fun _ => 1) 300 0 = none := by
      have : ∀ (fuel i : ℕ), angleLoopTrace (fun _ => 1) fuel i = none := by
        intro fuel
        induction fuel with
        | zero => intro i; rfl
        | succ fuel ih => intro i; simp [angleLoopTrace, ih]
      exact this 300 0
    rw [h]; rfl

/-- Claim C2 (amended): the break / remove-duplicates / collapse loop of
lines 1533-1546 repeats exactly until a collapse pass reports zero
modifications — if the first zero count occurs at iteration `k`, the loop
performs exactly `k + 1` iterations — and there is no iteration cap: with
fewer than `k + 1` iterations of fuel the loop is still running, and the
source rather than capping simply keeps iterating. -/
theorem angleLoop_fixpoint_exact (m : ℕ → ℕ) (k : ℕ) (hk : m k = 0)
    (hmin : ∀ j < k, m j ≠ 0) :
    (∀ fuel, k < fuel → angleLoopCount m fuel 0 = some (k + 1)) ∧
    (∀ fuel, fuel ≤ k → angleLoopCount m fuel 0 = none) := by
  constructor
  · intro fuel hf
    exact angleLoopCount_of_first_zero m k hk hmin fuel 0 (Nat.zero_le k) (by omega)
  · intro fuel hf
    exact angleLoopCount_none m fuel 0 (fun j hj1 hj2 => hmin j (by omega))

/-- Witness for `angleLoop_fixpoint_exact` at the concrete modification
stream 1, 1, 0, ... : the loop stops after exactly three iterations. -/
theorem angleLoop_fixpoint_exact_witness :
    (fun j => if j < 2 then 1 else 0) 2 = 0 ∧
    (∀ j < 2, (fun j => if j < 2 then 1 else 0) j ≠ 0) ∧
    angleLoopCount (fun j => if j < 2 then 1 else 0) 10 0 = some 3 :=
  ⟨rfl, by decide,
    (angleLoop_fixpoint_exact (fun j => if j < 2 then 1 else 0) 2 rfl (by decide)).1
      10 (by norm_num)⟩

/-- Claim C4: every valid centroid record that accumulated more than one
category is written with one extra synthetic category in field
`nlayers + 1` whose value is the number of accumulated categories (lines
1692-1694 of `main.c`); in particular a record with exactly two
accumulated categories carries the synthetic pair `(nlayers + 1, 2)`. -/
theorem centroid_overlap_synthetic (nlayers : ℕ) (recs : List CentroidRec)
    (r : CentroidRec) (hr : r ∈ recs) (hv : r.valid = true)
    (hn : 1 < r.cats.length) :
    (r.cats ++ [(nlayers + 1, (r.cats.length : ℤ))]) ∈ writeCentroids nlayers recs ∧
    (r.cats.length = 2 →
      ((nlayers + 1, (2 : ℤ)) : ℕ × ℤ) ∈ r.cats ++ [(nlayers + 1, (r.cats.length : ℤ))]) := by
  have hmat : materializeCats nlayers r
      = some (r.cats ++ [(nlayers + 1, (r.cats.length : ℤ))]) := by
    unfold materializeCats
    rw [if_neg (by simp [hv]), if_neg (by omega), if_pos hn]
  refine ⟨List.mem_filterMap.mpr ⟨r, hr, hmat⟩, ?_⟩
  intro h2
  rw [h2]
  simp

/-- Witness for `centroid_overlap_synthetic`: a single record with the
two accumulated categories (1, 5) and (2, 7), under 2 imported layers, is
written with the synthetic pair (3, 2). -/
theorem centroid_overlap_synthetic_witness :
    (⟨true, [(1, 5), (2, 7)]⟩ : CentroidRec) ∈ [(⟨true, [(1, 5), (2, 7)]⟩ : CentroidRec)] ∧
    (⟨true, [(1, 5), (2, 7)]⟩ : CentroidRec).valid = true ∧
    1 < (⟨true, [(1, 5), (2, 7)]⟩ : CentroidRec).cats.length ∧
    (([(1, 5), (2, 7)] ++ [(3, 2)]) ∈ writeCentroids 2 [⟨true, [(1, 5), (2, 7)]⟩] ∧
      ((⟨true, [(1, 5), (2, 7)]⟩ : CentroidRec).cats.length = 2 →
        ((3, (2 : ℤ)) : ℕ × ℤ) ∈
          (⟨true, [(1, 5), (2, 7)]⟩ : CentroidRec).cats
            ++ [(3, ((⟨true, [(1, 5), (2, 7)]⟩ : CentroidRec).cats.length : ℤ))])) :=
  ⟨by decide, rfl, by decide,
    centroid_overlap_synthetic 2 [⟨true, [(1, 5), (2, 7)]⟩] ⟨true, [(1, 5), (2, 7)]⟩
      (by decide) rfl (by decide)⟩

/-- Claim C5: category assignment of the import pass (lines 1320-1323,
1337, 1430 of `main.c`).  With an explicit integer key field
(`key_idx > -1`) each geometry-bearing feature is imported with that
field's value as its category; with the FID column designated
(`key_idx == -1`) with its FID; and with no designated key
(`key_idx == -2`) the categories assigned to the layer's features are the
monotonically increasing sequence 1, 2, 3, ... in stream order. -/
theorem category_assignment_policy (key_idx : ℤ) (feats : List OgrFeat) :
    (-1 < key_idx → ∀ (i : ℕ) (f : OgrFeat), feats[i]? = some f → f.hasGeom = true →
      (importPass key_idx feats 1)[i]? = some (some f.fieldVal, f.fieldVal)) ∧
    (key_idx = -1 → ∀ (i : ℕ) (f : OgrFeat), feats[i]? = some f → f.hasGeom = true →
      (importPass key_idx feats 1)[i]? = some (some f.fid, f.fid)) ∧
    (key_idx = -2 →
      (importPass key_idx feats 1).map Prod.snd
        = (List.range feats.length).map (fun i : ℕ => (i : ℤ) + 1)) := by
  refine ⟨?_, ?_, ?_⟩
  · intro hk i f hf hg
    exact importPass_keyfield key_idx hk feats 1 i f hf hg
  · intro hk i f hf hg
    subst hk
    exact importPass_fid feats 1 i f hf hg
  · intro hk
    subst hk
    rw [importPass_auto_snd feats 1, catSeq_eq_range]
    apply List.map_congr_left
    intro i _
    ring

/-- Witness for `category_assignment_policy`: a one-feature stream in
each of the three key modes. -/
theorem category_assignment_policy_witness :
    ((-1 : ℤ) < 4 ∧
      (importPass 4 [⟨true, 42, 9⟩] 1)[0]? = some (some 42, 42)) ∧
    ((importPass (-1) [⟨true, 42, 9⟩] 1)[0]? = some (some 9, 9)) ∧
    ((importPass (-2) [⟨true, 42, 9⟩] 1).map Prod.snd
      = (List.range 1).map (fun i : ℕ => (i : ℤ) + 1)) :=
  ⟨⟨by norm_num,
     (category_assignment_policy 4 [⟨true, 42, 9⟩]).1 (by norm_num) 0 ⟨true, 42, 9⟩ rfl rfl⟩,
   (category_assignment_policy (-1) [⟨true, 42, 9⟩]).2.1 rfl 0 ⟨true, 42, 9⟩ rfl rfl,
   (category_assignment_policy (-2) [⟨true, 42, 9⟩]).2.2 rfl⟩

/-- Claim C10: with no designated key field, the import pass advances its
category counter once per fetched feature whether or not the feature has
a geometry (line 1430 of `main.c` runs unconditionally), the
centroid-reattachment pass advances its counter by the same per-feature
rule (line 1635 runs before the geometry is inspected), and therefore the
two passes assign the identical category value at every stream position:
both produce 1, 2, ..., n over any feature stream, geometry or not. -/
theorem nullgeom_consumes_category (feats : List OgrFeat) :
    (importPass (-2) feats 1).map Prod.snd
      = (List.range feats.length).map (fun i : ℕ => (i : ℤ) + 1) ∧
    (reattachPass (-2) feats 0).map Prod.snd
      = (List.range feats.length).map (fun i : ℕ => (i : ℤ) + 1) ∧
    (importPass (-2) feats 1).map Prod.snd = (reattachPass (-2) feats 0).map Prod.snd := by
  have h1 : (importPass (-2) feats 1).map Prod.snd
      = (List.range feats.length).map (fun i : ℕ => (i : ℤ) + 1) := by
    rw [importPass_auto_snd feats 1, catSeq_eq_range]
    apply List.map_congr_left
    intro i _
    ring
  have h2 : (reattachPass (-2) feats 0).map Prod.snd
      = (List.range feats.length).map (fun i : ℕ => (i : ℤ) + 1) := by
    rw [reattachPass_auto_snd feats 0, zero_add, catSeq_eq_range]
    apply List.map_congr_left
    intro i _
    ring
  exact ⟨h1, h2, h1.trans h2.symm⟩

theorem angleLoopTrace_of_first_zero (m : ℕ → ℕ) (k : ℕ) (hk : m k = 0)
    (hmin : ∀ j < k, m j ≠ 0) :
    ∀ (fuel i : ℕ), i ≤ k → k < i + fuel →
      angleLoopTrace m fuel i
        = some (List.flatten (List.replicate (k + 1 - i)
            [CleanOp.breakLines, CleanOp.removeDuplicatesB, CleanOp.cleanSmallAngles])) := by
  intro fuel
  induction fuel with
  | zero => intro i hik hki; omega
  | succ fuel ih =>
    intro i hik hki
    by_cases h : m i = 0
    · have hi : i = k := by
        by_contra hne
        exact hmin i (lt_of_le_of_ne hik hne) h
      subst hi
      have h1 : i + 1 - i = 1 := by omega
      simp [angleLoopTrace, h, h1]
    · have hil : i < k := lt_of_le_of_ne hik (fun h0 => h (h0 ▸ hk))
      have h1 : k + 1 - i = (k + 1 - (i + 1)) + 1 := by omega
      simp only [angleLoopTrace, if_neg h]
      rw [ih (i + 1) hil (by omega), h1, List.replicate_succ, List.flatten_cons]
      rfl

theorem count_flatten_replicate (x : CleanOp) (l : List CleanOp) :
    ∀ n : ℕ, (List.flatten (List.replicate n l)).count x = n * l.count x := by
  intro n
  induction n with
  | zero => simp
  | succ n ih =>
    rw [List.replicate_succ, List.flatten_cons, List.count_append, ih]
    ring

/-- Claim C6: the cleaning pipeline of lines 1485-1583 executes its
stages in the fixed source order — snap (in the trace exactly when the
snap tolerance is >= 0), break polygons, remove duplicates, the
break/dedupe/collapse loop run to its fixpoint, merge boundaries, dangle
conversion-or-removal (conversion to lines exactly when lines were
imported as boundaries, deletion otherwise), area building, bridge
conversion-or-removal (same mode test), an extra topology
teardown-and-rebuild exactly when the bridge stage reported
modifications, and finally the unconditional rebuild that attaches
islands.  The second part restates the three conditions as occurrence
counts in the trace. -/
theorem cleaning_pipeline_order (snapv : ℚ) (tb : Bool) (m : ℕ → ℕ) (bm : ℕ)
    (fuel k : ℕ) (hk : m k = 0) (hmin : ∀ j < k, m j ≠ 0) (hf : k < fuel) :
    cleanPipelineTrace snapv tb m bm fuel = some (
      (if 0 ≤ snapv then [CleanOp.snapLines] else []) ++
      [CleanOp.breakPolygons, CleanOp.removeDuplicatesBC] ++
      List.flatten (List.replicate (k + 1)
        [CleanOp.breakLines, CleanOp.removeDuplicatesB, CleanOp.cleanSmallAngles]) ++
      [CleanOp.mergeLines] ++
      [if tb then CleanOp.chtypeDangles else CleanOp.removeDangles] ++
      [CleanOp.buildAreas] ++
      [if tb then CleanOp.chtypeBridges else CleanOp.removeBridges] ++
      (if bm ≠ 0 then [CleanOp.buildNone] else []) ++
      [CleanOp.buildNone, CleanOp.buildAttachIsles]) ∧
    (∀ tr, cleanPipelineTrace snapv tb m bm fuel = some tr →
      (tr.count CleanOp.snapLines = (if 0 ≤ snapv then 1 else 0) ∧
       tr.count CleanOp.chtypeDangles = (if tb then 1 else 0) ∧
       tr.count CleanOp.removeDangles = (if tb then 0 else 1) ∧
       tr.count CleanOp.buildNone = (if bm ≠ 0 then 2 else 1))) := by
  have htr : cleanPipelineTrace snapv tb m bm fuel = some (
      (if 0 ≤ snapv then [CleanOp.snapLines] else []) ++
      [CleanOp.breakPolygons, CleanOp.removeDuplicatesBC] ++
      List.flatten (List.replicate (k + 1)
        [CleanOp.breakLines, CleanOp.removeDuplicatesB, CleanOp.cleanSmallAngles]) ++
      [CleanOp.mergeLines] ++
      [if tb then CleanOp.chtypeDangles else CleanOp.removeDangles] ++
      [CleanOp.buildAreas] ++
      [if tb then CleanOp.chtypeBridges else CleanOp.removeBridges] ++
      (if bm ≠ 0 then [CleanOp.buildNone] else []) ++
      [CleanOp.buildNone, CleanOp.buildAttachIsles]) := by
    unfold cleanPipelineTrace
    rw [angleLoopTrace_of_first_zero m k hk hmin fuel 0 (Nat.zero_le k) (by omega)]
    simp only [Option.map_some, Nat.sub_zero]
    rfl
  refine ⟨htr, ?_⟩
  intro tr htr2
  rw [htr, Option.some.injEq] at htr2
  subst htr2
  refine ⟨?_, ?_, ?_, ?_⟩ <;>
  · by_cases hs : 0 ≤ snapv <;> by_cases hb : bm ≠ 0 <;> cases tb <;>
      simp [hs, hb, List.count_append, count_flatten_replicate]

/-- Witness for `cleaning_pipeline_order` at snap tolerance 0, lines not
imported as boundaries, collapse counts 1, 0, ..., one bridge
modification and fuel 3. -/
theorem cleaning_pipeline_order_witness :
    (fun j => if j = 0 then 1 else 0) 1 = 0 ∧
    (∀ j < 1, (fun j => if j = 0 then 1 else 0) j ≠ 0) ∧
    cleanPipelineTrace 0 false (fun j => if j = 0 then 1 else 0) 1 3 = some
      [CleanOp.snapLines, CleanOp.breakPolygons, CleanOp.removeDuplicatesBC,
       CleanOp.breakLines, CleanOp.removeDuplicatesB, CleanOp.cleanSmallAngles,
       CleanOp.breakLines, CleanOp.removeDuplicatesB, CleanOp.cleanSmallAngles,
       CleanOp.mergeLines, CleanOp.removeDangles, CleanOp.buildAreas,
       CleanOp.removeBridges, CleanOp.buildNone, CleanOp.buildNone,
       CleanOp.buildAttachIsles] :=
  ⟨rfl, by decide,
    ((cleaning_pipeline_order 0 false (fun j => if j = 0 then 1 else 0) 1 3 1 rfl
        (by decide) (by norm_num)).1).trans (by decide)⟩

/-- Claim C1, counterexample to the "split_distance = -1 for
n_polygon_boundaries <= 50" part: with cleaning enabled and the
non-degenerate selection bbox (0,0)-(1,1), a census of 10 polygon
boundaries leaves `split_distance` at its initialized value 0 (line 881
of `main.c`), not -1. -/
theorem split_distance_small_census_is_zero :
    splitDistanceFinal false 0 0 1 1 10 = 0 ∧
    splitDistanceFinal false 0 0 1 1 10 ≠ -1 := by
  have hcond : ¬(false = true ∨ (1 : ℝ) ≤ 0 ∨ (1 : ℝ) ≤ 0) := by
    rintro (h | h | h)
    · exact Bool.false_ne_true h
    · linarith
    · linarith
  have hzero : splitDistanceFinal false 0 0 1 1 10 = 0 := by
    unfold splitDistanceFinal
    rw [if_neg]
    · unfold splitDistanceInit
      exact if_neg hcond
    · rintro ⟨-, h50⟩
      omega
  exact ⟨hzero, by rw [hzero]; norm_num⟩

/-- Claim C1 (amended): with polygon cleaning enabled and a
non-degenerate selection bbox, the boundary-splitting distance is
`sqrt(bbox area) / log(n_polygon_boundaries) / 16` whenever
`n_polygon_boundaries > 50`, and for `n_polygon_boundaries <= 50`
splitting stays disabled with `split_distance = 0` (the value -1 is used
only when cleaning is disabled or the bbox is degenerate, lines 876-879
of `main.c`). -/
theorem split_distance_calibration (no_clean : Bool) (xmin ymin xmax ymax : ℝ)
    (n : ℕ) (hnc : no_clean = false) (hx : xmin < xmax) (hy : ymin < ymax) :
    (50 < n → splitDistanceFinal no_clean xmin ymin xmax ymax n
      = Real.sqrt ((xmax - xmin) * (ymax - ymin)) / Real.log (n : ℝ) / 16) ∧
    (n ≤ 50 → splitDistanceFinal no_clean xmin ymin xmax ymax n = 0) := by
  have hcond : ¬(no_clean = true ∨ xmax ≤ xmin ∨ ymax ≤ ymin) := by
    rintro (h | h | h)
    · rw [hnc] at h
      exact Bool.false_ne_true h
    · linarith
    · linarith
  have harea : areaSizeOf no_clean xmin ymin xmax ymax
      = Real.sqrt ((xmax - xmin) * (ymax - ymin)) := by
    unfold areaSizeOf
    exact if_neg hcond
  have hpos : 0 < Real.sqrt ((xmax - xmin) * (ymax - ymin)) :=
    Real.sqrt_pos.mpr (mul_pos (by linarith) (by linarith))
  constructor
  · intro hn
    unfold splitDistanceFinal
    rw [harea, if_pos ⟨hpos, hn⟩]
  · intro hn
    unfold splitDistanceFinal
    rw [harea, if_neg]
    · unfold splitDistanceInit
      exact if_neg hcond
    · rintro ⟨-, h50⟩
      omega

/-- Witness for `split_distance_calibration`: bbox (0,0)-(1,1) and a
census of 800 polygon boundaries. -/
theorem split_distance_calibration_witness :
    splitDistanceFinal false 0 0 1 1 800
      = Real.sqrt ((1 - 0) * (1 - 0)) / Real.log (800 : ℝ) / 16 :=
  (split_distance_calibration false 0 0 1 1 800 rfl (by norm_num) (by norm_num)).1
    (by norm_num)

theorem roundPow10_spec (v : ℝ) (hv : 0 < v) :
    v ≤ roundPow10 v ∧ ∃ k : ℤ, roundPow10 v = (10 : ℝ) ^ k := by
  refine ⟨?_, ⟨_, rfl⟩⟩
  unfold roundPow10
  have hb : (1 : ℝ) ≤ 10 := by norm_num
  have hv10 : (10 : ℝ) ^ Real.logb 10 v = v :=
    Real.rpow_logb (by norm_num) (by norm_num) hv
  by_cases hneg : Real.logb 10 v < 0
  · rw [if_pos hneg]
    calc v = (10 : ℝ) ^ Real.logb 10 v := hv10.symm
    _ ≤ (10 : ℝ) ^ ((⌈Real.logb 10 v⌉ : ℤ) : ℝ) :=
        Real.rpow_le_rpow_of_exponent_le hb (Int.le_ceil _)
    _ = (10 : ℝ) ^ (⌈Real.logb 10 v⌉ : ℤ) := Real.rpow_intCast 10 _
  · rw [if_neg hneg]
    calc v = (10 : ℝ) ^ Real.logb 10 v := hv10.symm
    _ ≤ (10 : ℝ) ^ (((⌊Real.logb 10 v⌋ + 1 : ℤ)) : ℝ) := by
        apply Real.rpow_le_rpow_of_exponent_le hb
        push_cast
        have := Int.lt_floor_add_one (Real.logb 10 v)
        linarith
    _ = (10 : ℝ) ^ ((⌊Real.logb 10 v⌋ + 1) : ℤ) := Real.rpow_intCast 10 _

theorem snapXmax_five : snapXmax 5 0 0 0 = 5 := by
  have h5 : ((5 : ℝ)) = (((5 : ℤ)) : ℝ) := by norm_num
  have htr : cTruncInt 5 = 5 := by
    unfold cTruncInt
    rw [if_neg (not_lt.mpr (by norm_num)), h5, Int.floor_intCast]
  have habs : cIntAbs 5 = 5 := by
    unfold cIntAbs
    rw [htr]
    norm_num
  have h0 : cIntAbs 0 = 0 := by
    unfold cIntAbs cTruncInt
    norm_num
  unfold snapXmax
  rw [habs, h0]
  have hnn : (0 : ℝ) ≤ 5 := by norm_num
  rw [max_self, max_eq_left hnn, max_eq_left hnn]

theorem ulpScaled_five : ulpScaled 5 52 = 5 * (2 : ℝ) ^ (-52 : ℤ) := by
  unfold ulpScaled
  norm_num

theorem logb_raw_five_bounds :
    -15 < Real.logb 10 (5 * (2 : ℝ) ^ (-52 : ℤ)) ∧
    Real.logb 10 (5 * (2 : ℝ) ^ (-52 : ℤ)) < -(29 / 2) := by
  have hb : (1 : ℝ) < 10 := by norm_num
  constructor
  · have hA : (10 : ℝ) ^ (-15 : ℤ) < 5 * (2 : ℝ) ^ (-52 : ℤ) := by
      norm_num
    have hmono := Real.logb_lt_logb hb (by positivity) hA
    rwa [show Real.logb 10 ((10 : ℝ) ^ (-15 : ℤ)) = -15 by
      rw [← Real.rpow_intCast 10 (-15), Real.logb_rpow (by norm_num) (by norm_num)]
      norm_num] at hmono
  · have hB : (5 * (2 : ℝ) ^ (-52 : ℤ)) ^ 2 < (10 : ℝ) ^ (-29 : ℤ) := by
      norm_num
    have hmono := Real.logb_lt_logb hb (by positivity) hB
    rw [Real.logb_pow] at hmono
    rw [show Real.logb 10 ((10 : ℝ) ^ (-29 : ℤ)) = -29 by
      rw [← Real.rpow_intCast 10 (-29), Real.logb_rpow (by norm_num) (by norm_num)]
      norm_num] at hmono
    set l := Real.logb 10 (5 * (2 : ℝ) ^ (-52 : ℤ)) with hldef
    push_cast at hmono
    linarith

theorem roundPow10_raw_five :
    roundPow10 (5 * (2 : ℝ) ^ (-52 : ℤ)) = (10 : ℝ) ^ (-14 : ℤ) := by
  obtain ⟨hlo, hhi⟩ := logb_raw_five_bounds
  unfold roundPow10
  set l := Real.logb 10 (5 * (2 : ℝ) ^ (-52 : ℤ)) with hldef
  rw [if_pos (by linarith)]
  congr 1
  rw [Int.ceil_eq_iff]
  constructor
  · push_cast
    linarith
  · push_cast
    linarith

theorem nearestPow10_raw_five :
    nearestPow10 (5 * (2 : ℝ) ^ (-52 : ℤ)) = (10 : ℝ) ^ (-15 : ℤ) := by
  obtain ⟨hlo, hhi⟩ := logb_raw_five_bounds
  unfold nearestPow10
  set l := Real.logb 10 (5 * (2 : ℝ) ^ (-52 : ℤ)) with hldef
  congr 1
  rw [round_eq, Int.floor_eq_iff]
  constructor
  · push_cast
    linarith
  · push_cast
    linarith

/-- Claim C3, counterexample to the "rounded to the nearest power of ten"
part: with the map box E = 5, W = N = S = 0 — well inside the range where
the integer `abs` conversion of lines 1778-1785 is defined behavior, and
with an integral coordinate, so the truncation is the identity — the raw
double-precision scale of the largest coordinate magnitude is
`5 * 2^-52` (about 1.11e-15), whose nearest power of ten is `10^-15`;
the estimator of lines 1791-1800 of `main.c` instead reports `10^-14`,
rounding up to the next power of ten. -/
theorem snap_estimate_not_nearest :
    minSnapOf (snapXmax 5 0 0 0) = (10 : ℝ) ^ (-14 : ℤ) ∧
    nearestPow10 (ulpScaled (snapXmax 5 0 0 0) 52) = (10 : ℝ) ^ (-15 : ℤ) ∧
    (10 : ℝ) ^ (-14 : ℤ) ≠ (10 : ℝ) ^ (-15 : ℤ) := by
  refine ⟨?_, ?_, by norm_num⟩
  · unfold minSnapOf
    rw [snapXmax_five, ulpScaled_five, roundPow10_raw_five]
  · rw [snapXmax_five, ulpScaled_five, nearestPow10_raw_five]

/-- Claim C3 (amended): when the estimator of lines 1766-1855 is
triggered (one layer, polygons counted, and either an area/polygon count
mismatch or detected overlaps), and the map coordinates lie in the range
`|coordinate| < 2^31` where the integer `abs` conversion of lines
1778-1785 is defined behavior, its advisory snap-tolerance interval has
lower bound `x * 2^-52` (double precision, 53-bit mantissa) and upper
bound `x * 2^-23` (single precision, 24-bit mantissa) of the largest
absolute map coordinate `x` (taken through C's integer `abs`, which
truncates the double coordinates), each rounded UP to the next power of
ten — each bound is a power of ten at least as large as the raw value,
not the nearest power of ten. -/
theorem snap_estimate_rounds_up (np nl nc no_ : ℕ) (e w n s : ℝ)
    (htrig : estimatorTriggered np nl nc no_ = true)
    (he : |e| < 2 ^ 31) (hw : |w| < 2 ^ 31)
    (hn : |n| < 2 ^ 31) (hs : |s| < 2 ^ 31)
    (hx : 0 < snapXmax e w n s) :
    minSnapOf (snapXmax e w n s) = roundPow10 (ulpScaled (snapXmax e w n s) 52) ∧
    maxSnapOf (snapXmax e w n s) = roundPow10 (ulpScaled (snapXmax e w n s) 23) ∧
    ulpScaled (snapXmax e w n s) 52 ≤ minSnapOf (snapXmax e w n s) ∧
    (∃ k : ℤ, minSnapOf (snapXmax e w n s) = (10 : ℝ) ^ k) ∧
    ulpScaled (snapXmax e w n s) 23 ≤ maxSnapOf (snapXmax e w n s) ∧
    (∃ k : ℤ, maxSnapOf (snapXmax e w n s) = (10 : ℝ) ^ k) := by
  have h52 : 0 < ulpScaled (snapXmax e w n s) 52 := by
    unfold ulpScaled
    positivity
  have h23 : 0 < ulpScaled (snapXmax e w n s) 23 := by
    unfold ulpScaled
    positivity
  obtain ⟨hmin1, hmin2⟩ := roundPow10_spec _ h52
  obtain ⟨hmax1, hmax2⟩ := roundPow10_spec _ h23
  exact ⟨rfl, rfl, hmin1, hmin2, hmax1, hmax2⟩

/-- Witness for `snap_estimate_rounds_up`: estimator triggered by a
census of 2 polygons against 1 area with centroid in a single layer, map
box E = 5 (inside the defined `abs` range). -/
theorem snap_estimate_rounds_up_witness :
    estimatorTriggered 2 1 1 0 = true ∧
    |(5 : ℝ)| < 2 ^ 31 ∧ |(0 : ℝ)| < 2 ^ 31 ∧
    0 < snapXmax 5 0 0 0 ∧
    ulpScaled (snapXmax 5 0 0 0) 52 ≤ minSnapOf (snapXmax 5 0 0 0) := by
  have h5 : |(5 : ℝ)| < 2 ^ 31 := by
    rw [abs_of_nonneg (by norm_num : (0 : ℝ) ≤ 5)]
    norm_num
  have h0 : |(0 : ℝ)| < 2 ^ 31 := by
    rw [abs_zero]
    norm_num
  have hpos : 0 < snapXmax 5 0 0 0 := by
    rw [snapXmax_five]
    norm_num
  exact ⟨rfl, h5, h0, hpos,
    (snap_estimate_rounds_up 2 1 1 0 5 0 0 0 rfl h5 h0 h0 h0 hpos).2.2.1⟩

theorem list_getD_set_self {β : Type} (L : List β) : ∀ (i : ℕ) (x d : β),
    i < L.length → (L.set i x).getD i d = x := by
  induction L with
  | nil => intro i x d h; simp at h
  | cons hd tl ih =>
    intro i x d h
    cases i with
    | zero => rfl
    | succ i =>
      simp only [List.set_cons_succ, List.getD_cons_succ]
      exact ih i x d (by simpa using h)

theorem list_getD_set_ne {β : Type} (L : List β) : ∀ (i j : ℕ) (x d : β),
    i ≠ j → (L.set i x).getD j d = L.getD j d := by
  induction L with
  | nil => intro i j x d h; simp
  | cons hd tl ih =>
    intro i j x d h
    cases i with
    | zero =>
      cases j with
      | zero => exact absurd rfl h
      | succ j => rfl
    | succ i =>
      cases j with
      | zero => rfl
      | succ j =>
        simp only [List.set_cons_succ, List.getD_cons_succ]
        exact ih i j x d (fun he => h (by omega))

theorem sum_map_length_set {α : Type} (L : List (List α)) : ∀ (i : ℕ) (x : List α),
    i < L.length →
    ((L.set i x).map List.length).sum + (L.getD i []).length
      = (L.map List.length).sum + x.length := by
  induction L with
  | nil => intro i x h; simp at h
  | cons hd tl ih =>
    intro i x h
    cases i with
    | zero =>
      simp only [List.set_cons_zero, List.map_cons, List.sum_cons, List.getD_cons_zero]
      omega
    | succ i =>
      simp only [List.set_cons_succ, List.map_cons, List.sum_cons, List.getD_cons_succ]
      have := ih i x (by simpa using h)
      omega

theorem interLoop_spec {α : Type} (req : ℕ) :
    ∀ (fuel : ℕ) (s : OgrIterSt α),
      interMeasure s < fuel →
      s.curr < s.sharedRem.length →
      req < s.sharedRem.length →
      (s.hasNonempty = false → ∀ i < s.curr, s.sharedRem.getD i [] = []) →
      (interLoop req fuel s).1 = (s.sharedRem.getD req []).head? ∧
      ((interLoop req fuel s).1 = none →
        (interLoop req fuel s).2.done = true ∧
        ∀ i < (interLoop req fuel s).2.sharedRem.length,
          (interLoop req fuel s).2.sharedRem.getD i [] = []) := by
  intro fuel
  induction fuel with
  | zero =>
    intro s hm
    exact absurd hm (Nat.not_lt_zero _)
  | succ fuel ih =>
    intro s hm hc hr hinv
    rw [interLoop]
    cases hcase : s.sharedRem.getD s.curr [] with
    | cons f fs =>
      simp only []
      by_cases hcr : s.curr = req
      · rw [if_pos hcr]
        refine ⟨?_, by simp⟩
        rw [← hcr, hcase]
        rfl
      · rw [if_neg hcr]
        have hlen : (s.sharedRem.set s.curr fs).length = s.sharedRem.length :=
          List.length_set s.sharedRem s.curr fs
        have hsum := sum_map_length_set s.sharedRem s.curr fs hc
        rw [hcase] at hsum
        simp only [List.length_cons] at hsum
        have hsum2 : (s.sharedRem.map List.length).sum
            = ((s.sharedRem.set s.curr fs).map List.length).sum + 1 := by omega
        have hX : (s.sharedRem.map List.length).sum * (2 * s.sharedRem.length + 2)
            = ((s.sharedRem.set s.curr fs).map List.length).sum
                * (2 * s.sharedRem.length + 2)
              + (2 * s.sharedRem.length + 2) := by
          rw [hsum2]; ring
        have hterm : (if s.hasNonempty = true then s.sharedRem.length + 1 else 0)
            ≤ s.sharedRem.length + 1 := by
          split <;> omega
        have hm1 : interMeasure
            { s with sharedRem := s.sharedRem.set s.curr fs, hasNonempty := true }
            < fuel := by
          simp only [interMeasure, totalRem] at hm ⊢
          simp only [hlen]
          split
          · omega
          · rename_i hfalse
            exact absurd trivial hfalse
        have hrec := ih { s with sharedRem := s.sharedRem.set s.curr fs, hasNonempty := true }
          hm1 (by simpa [hlen] using hc) (by simpa [hlen] using hr)
          (by intro h; simp at h)
        refine ⟨?_, hrec.2⟩
        rw [hrec.1]
        simp only []
        rw [list_getD_set_ne s.sharedRem s.curr req fs [] hcr]
    | nil =>
      simp only []
      by_cases hwrap : s.curr + 1 = s.sharedRem.length
      · rw [if_pos hwrap]
        by_cases hhn : s.hasNonempty = true
        · rw [if_pos hhn]
          have hm2 : interMeasure { s with curr := 0, hasNonempty := false } < fuel := by
            simp only [interMeasure, totalRem, hhn, if_true] at hm ⊢
            simp only [Bool.false_eq_true, if_false]
            omega
          have hrec := ih { s with curr := 0, hasNonempty := false }
            hm2 (by simp only []; omega) hr
            (by intro _ i hi; exact absurd hi (Nat.not_lt_zero i))
          exact hrec
        · rw [if_neg hhn]
          have hhnf : s.hasNonempty = false := by
            cases h : s.hasNonempty
            · rfl
            · exact absurd h hhn
          have hempty : ∀ i < s.sharedRem.length, s.sharedRem.getD i [] = [] := by
            intro i hi
            rcases Nat.lt_or_ge i s.curr with h | h
            · exact hinv hhnf i h
            · have hieq : i = s.curr := by omega
              rw [hieq, hcase]
          refine ⟨?_, ?_⟩
          · rw [hempty req hr]
            rfl
          · intro _
            exact ⟨rfl, hempty⟩
      · rw [if_neg hwrap]
        have hm3 : interMeasure { s with curr := s.curr + 1 } < fuel := by
          simp only [interMeasure, totalRem] at hm ⊢
          omega
        have hrec := ih { s with curr := s.curr + 1 }
          hm3 (by simp only []; omega) hr
          (by
            intro h i hi
            simp only [] at hi
            rcases Nat.lt_or_ge i s.curr with h2 | h2
            · exact hinv h i h2
            · have hieq : i = s.curr := by omega
              rw [hieq, hcase])
        exact hrec

theorem ogrSwitch_interleaved {α : Type} (L : List (List α)) (layer : ℕ)
    (spat attr : Option ℕ) (s : OgrIterSt α) :
    (ogrSwitch L layer spat attr s).interleaved = s.interleaved := by
  unfold ogrSwitch
  split
  · rfl
  · split <;> rfl

theorem ogrSwitch_same {α : Type} (L : List (List α)) (layer : ℕ)
    (spat attr : Option ℕ) (s : OgrIterSt α) (h : s.requested = (layer : ℤ)) :
    ogrSwitch L layer spat attr s = s := by
  unfold ogrSwitch
  rw [if_pos h]

theorem getD_map_const_none (l : List (Option ℕ)) : ∀ j : ℕ,
    (l.map (fun _ => (none : Option ℕ))).getD j none = none := by
  induction l with
  | nil => intro j; rfl
  | cons hd tl ih =>
    intro j
    cases j with
    | zero => rfl
    | succ j => exact ih j

/-- Claim C7: in interleaved reading mode, with the requested layer
unchanged and the stream not yet exhausted, `ogr_getnextfeature` returns
exactly the next unconsumed feature of the requested layer — every
feature pulled from the shared cursor whose owning layer does not match
is discarded — and it reports end of stream (NULL) only when a full
round-robin pass over all layers yields no feature, i.e. only when every
layer's cursor is exhausted in the final state.  The `hinv` hypothesis is
the loop invariant (already-probed layers of the current pass are
exhausted); it holds trivially on entry to a pass. -/
theorem interleaved_next_feature {α : Type} (L : List (List α)) (layer : ℕ)
    (spat attr : Option ℕ) (fuel : ℕ) (s : OgrIterSt α)
    (hmode : s.interleaved = true) (hreq : s.requested = (layer : ℤ))
    (hdone : s.done = false)
    (hm : interMeasure s < fuel) (hc : s.curr < s.sharedRem.length)
    (hl : layer < s.sharedRem.length)
    (hinv : s.hasNonempty = false → ∀ i < s.curr, s.sharedRem.getD i [] = []) :
    (ogrGetNextFeature L layer spat attr fuel s).1
      = (s.sharedRem.getD layer []).head? ∧
    ((ogrGetNextFeature L layer spat attr fuel s).1 = none →
      ∀ i < (ogrGetNextFeature L layer spat attr fuel s).2.sharedRem.length,
        (ogrGetNextFeature L layer spat attr fuel s).2.sharedRem.getD i [] = []) := by
  have hsw : ogrSwitch L layer spat attr s = s := ogrSwitch_same L layer spat attr s hreq
  simp only [ogrGetNextFeature]
  rw [hsw, hdone, hmode]
  simp only [Bool.false_eq_true, if_false, if_true]
  exact ⟨(interLoop_spec layer fuel s hm hc hl hinv).1,
    fun hnone => ((interLoop_spec layer fuel s hm hc hl hinv).2 hnone).2⟩

/-- Witness for `interleaved_next_feature`: two layers with features
10 and 20, 21; requesting layer 1 from a fresh interleaved pass returns
feature 20 after discarding feature 10's layer mismatch. -/
theorem interleaved_next_feature_witness :
    interMeasure (⟨true, 1, false, 0, false, [[10], [20, 21]], [], [], []⟩ : OgrIterSt ℕ) < 21 ∧
    (ogrGetNextFeature [[10], [20, 21]] 1 none none 21
      (⟨true, 1, false, 0, false, [[10], [20, 21]], [], [], []⟩ : OgrIterSt ℕ)).1 = some 20 :=
  ⟨by decide,
    ((interleaved_next_feature [[10], [20, 21]] 1 none none 21
        (⟨true, 1, false, 0, false, [[10], [20, 21]], [], [], []⟩ : OgrIterSt ℕ)
        rfl rfl rfl (by decide) (by decide) (by decide) (by decide)).1).trans (by decide)⟩

/-- Claim C8: a call whose requested layer differs from the previous one
discards the per-layer state and rewinds before reading.  In interleaved
mode the switch clears the spatial and attribute filters of every layer,
rewinds the shared cursor to the start of the stream, re-applies the
requested layer's filters, resets the round-robin position and
end-of-stream flag; in independent-cursor mode it re-targets and rewinds
the requested layer's own cursor and clears the end-of-stream flag
(lines 1942-1986 of `main.c`). -/
theorem layer_switch_resets {α : Type} (L : List (List α)) (layer : ℕ)
    (spat attr : Option ℕ) (s : OgrIterSt α) (hne : s.requested ≠ (layer : ℤ)) :
    (s.interleaved = true →
      (ogrSwitch L layer spat attr s).spatF = (s.spatF.map (fun _ => none)).set layer spat ∧
      (ogrSwitch L layer spat attr s).attrF = (s.attrF.map (fun _ => none)).set layer attr ∧
      (ogrSwitch L layer spat attr s).sharedRem = L ∧
      (ogrSwitch L layer spat attr s).curr = 0 ∧
      (ogrSwitch L layer spat attr s).hasNonempty = false ∧
      (ogrSwitch L layer spat attr s).requested = (layer : ℤ) ∧
      (ogrSwitch L layer spat attr s).done = false ∧
      (∀ j : ℕ, j ≠ layer → (ogrSwitch L layer spat attr s).spatF.getD j none = none) ∧
      (layer < s.spatF.length →
        (ogrSwitch L layer spat attr s).spatF.getD layer none = spat)) ∧
    (s.interleaved = false →
      (ogrSwitch L layer spat attr s).layerRem
        = s.layerRem.set layer (L.getD layer []) ∧
      (ogrSwitch L layer spat attr s).curr = layer ∧
      (ogrSwitch L layer spat attr s).requested = (layer : ℤ) ∧
      (ogrSwitch L layer spat attr s).done = false) := by
  constructor
  · intro hmode
    unfold ogrSwitch
    rw [if_neg hne, if_pos hmode]
    refine ⟨rfl, rfl, rfl, rfl, rfl, rfl, rfl, ?_, ?_⟩
    · intro j hj
      simp only []
      rw [list_getD_set_ne _ layer j spat none (fun h => hj h.symm)]
      exact getD_map_const_none s.spatF j
    · intro hlt
      simp only []
      exact list_getD_set_self (s.spatF.map (fun _ => none)) layer spat none
        (by simpa using hlt)
  · intro hmode
    unfold ogrSwitch
    rw [if_neg hne, if_neg (by rw [hmode]; exact Bool.false_ne_true)]
    exact ⟨rfl, rfl, rfl, rfl⟩

/-- Witness for `layer_switch_resets`: switching a fresh interleaved
iterator (requested = -1) to layer 1 of a two-layer source installs the
layer-1 filters, clears the rest and rewinds. -/
theorem layer_switch_resets_witness :
    ((-1 : ℤ) ≠ (1 : ℤ)) ∧
    ((ogrSwitch [[10], [20]] 1 (some 7) (some 8)
        (⟨true, -1, true, 0, true, [], [], [none, none], [none, none]⟩ : OgrIterSt ℕ)).sharedRem
      = [[10], [20]] ∧
     (ogrSwitch [[10], [20]] 1 (some 7) (some 8)
        (⟨true, -1, true, 0, true, [], [], [none, none], [none, none]⟩ : OgrIterSt ℕ)).curr = 0 ∧
     (ogrSwitch [[10], [20]] 1 (some 7) (some 8)
        (⟨true, -1, true, 0, true, [], [], [none, none], [none, none]⟩ : OgrIterSt ℕ)).hasNonempty
      = false ∧
     (ogrSwitch [[10], [20]] 1 (some 7) (some 8)
        (⟨true, -1, true, 0, true, [], [], [none, none], [none, none]⟩ : OgrIterSt ℕ)).requested
      = (1 : ℤ) ∧
     (ogrSwitch [[10], [20]] 1 (some 7) (some 8)
        (⟨true, -1, true, 0, true, [], [], [none, none], [none, none]⟩ : OgrIterSt ℕ)).done
      = false) :=
  have h := (layer_switch_resets [[10], [20]] 1 (some 7) (some 8)
    (⟨true, -1, true, 0, true, [], [], [none, none], [none, none]⟩ : OgrIterSt ℕ)
    (by decide)).1 rfl
  ⟨by decide, h.2.2.1, h.2.2.2.1, h.2.2.2.2.1, h.2.2.2.2.2.1, h.2.2.2.2.2.2.1⟩

/-- Claim C9: once `ogr_getnextfeature` has returned NULL for a layer it
has set `done`, and every subsequent call with the same requested layer
returns NULL immediately with the iterator state unchanged — no further
feature is read — until `OGR_iterator_reset` (which clears `done` and the
requested layer) or a different layer forces a switch.  The second
conjunct shows the NULL return always sets `done` in independent-cursor
mode; for the interleaved loop this is part of `interLoop_spec`. -/
theorem eos_latch {α : Type} (L : List (List α)) (layer : ℕ) (spat attr : Option ℕ)
    (fuel : ℕ) (s : OgrIterSt α) :
    (s.done = true → s.requested = (layer : ℤ) →
      ogrGetNextFeature L layer spat attr fuel s = (none, s)) ∧
    (s.interleaved = false →
      (ogrGetNextFeature L layer spat attr fuel s).1 = none →
      (ogrGetNextFeature L layer spat attr fuel s).2.done = true) ∧
    ((ogrIteratorReset s).requested = -1 ∧ (ogrIteratorReset s).done = false) := by
  refine ⟨?_, ?_, rfl, rfl⟩
  · intro hdone hreq
    have hsw : ogrSwitch L layer spat attr s = s := ogrSwitch_same L layer spat attr s hreq
    simp only [ogrGetNextFeature]
    rw [hsw, hdone]
    simp
  · intro hmode
    have hil : (ogrSwitch L layer spat attr s).interleaved = false := by
      rw [ogrSwitch_interleaved]
      exact hmode
    simp only [ogrGetNextFeature]
    by_cases hd : (ogrSwitch L layer spat attr s).done = true
    · rw [if_pos hd]
      intro _
      exact hd
    · rw [if_neg hd, hil]
      simp only [Bool.false_eq_true, if_false]
      cases hcase : (ogrSwitch L layer spat attr s).layerRem.getD layer [] with
      | nil =>
        intro _
        rfl
      | cons f fs =>
        intro hnone
        exact absurd hnone (by simp)

/-- Witness for `eos_latch`: an interleaved iterator already at end of
stream for requested layer 0 returns NULL and is left unchanged. -/
theorem eos_latch_witness :
    (⟨true, 0, true, 1, false, [[]], [], [], []⟩ : OgrIterSt ℕ).done = true ∧
    (⟨true, 0, true, 1, false, [[]], [], [], []⟩ : OgrIterSt ℕ).requested = (0 : ℤ) ∧
    ogrGetNextFeature [[5]] 0 none none 3
        (⟨true, 0, true, 1, false, [[]], [], [], []⟩ : OgrIterSt ℕ)
      = (none, (⟨true, 0, true, 1, false, [[]], [], [], []⟩ : OgrIterSt ℕ)) :=
  ⟨rfl, rfl,
    (eos_latch [[5]] 0 none none 3
      (⟨true, 0, true, 1, false, [[]], [], [], []⟩ : OgrIterSt ℕ)).1 rfl rfl⟩
